import Mathlib

/-!
Formal model of the swap-ingestion pipeline of the `gas` repository
(`scripts/fetch_swaps_daily.py`, `scripts/fetch_swaps.py`,
`environ/utils.py`).  Machine integers of the source (block numbers,
timestamps, log indices) are modelled as `Nat`; token amounts as `Int`;
Python `Decimal`/`float` arithmetic as `ℚ`; fallible RPC calls as
`Option`-valued oracles.  The recursive range bisection of
`fetch_swap_events` is modelled with explicit fuel because the source
recursion is not well-founded on single-block ranges.
-/

/-- A decoded Uniswap-V3 `Swap` log, with the fields the scripts read:
the emitting pool address, block number, log index, `args.amount0` and
`args.sqrtPriceX96`. -/
structure SwapEvent where
  address : String
  blockNumber : Nat
  logIndex : Nat
  amount0 : Int
  sqrtPriceX96 : Nat
deriving DecidableEq, Repr

/-- Whether an event falls in the inclusive block range `[frm, toB]`
requested from `eth_getLogs`. -/
def inRange (frm toB : Nat) (e : SwapEvent) : Bool :=
  decide (frm ≤ e.blockNumber) && decide (e.blockNumber ≤ toB)

/-- The transport collaborator `_fetch_events_for_all_contracts`
(`environ/utils.py`): a successful `eth_getLogs` answer for `[frm, toB]`
returns exactly the chain events whose block number lies in the range,
in the chain order of `world`. -/
def getLogs (world : List SwapEvent) (frm toB : Nat) : List SwapEvent :=
  world.filter (inRange frm toB)

/-- The provider returns logs ordered by ascending block number
(then log index); only the block ordering matters below. -/
def blockSorted (world : List SwapEvent) : Prop :=
  List.Pairwise (fun a b => a.blockNumber ≤ b.blockNumber) world

instance (world : List SwapEvent) : Decidable (blockSorted world) := by
  unfold blockSorted; infer_instance

/-- `fetch_swap_events` (`scripts/fetch_swaps_daily.py` lines 234-318 and
`scripts/fetch_swaps.py` lines 97-152): attempt the whole range; if the
provider rejects it with error code -32005 (`tooLarge`), split at
`mid = (frm + toB) / 2` and recurse on `[frm, mid]` and `[mid + 1, toB]`,
concatenating the results (the daily variant appends each sub-range's
events into the output file, left sub-range first).  The source recursion
has no single-block guard, so it is modelled with explicit fuel; `none`
means the recursion-depth budget was exhausted. -/
def fetch_swap_events (world : List SwapEvent) (tooLarge : Nat → Nat → Bool) :
    Nat → Nat → Nat → Option (List SwapEvent)
  | 0, _, _ => none
  | fuel + 1, frm, toB =>
    if tooLarge frm toB then
      match fetch_swap_events world tooLarge fuel frm ((frm + toB) / 2),
            fetch_swap_events world tooLarge fuel ((frm + toB) / 2 + 1) toB with
      | some left, some right => some (left ++ right)
      | _, _ => none
    else
      some (getLogs world frm toB)

/-- The events actually written by the top-level call of
`fetch_swap_events` in `scripts/fetch_swaps.py` (lines 179-186): the
final write loop iterates the local variable `events`, which is assigned
only when the top-level transport call returned normally.  On the -32005
path the bisection results go into `temp_data`, `events` stays unassigned,
and the write raises `UnboundLocalError`: nothing is delivered (`none`). -/
def fetch_swaps_written (world : List SwapEvent) (tooLarge : Nat → Nat → Bool)
    (frm toB : Nat) : Option (List SwapEvent) :=
  if tooLarge frm toB then none else some (getLogs world frm toB)

lemma getLogs_nil_of_lt (world : List SwapEvent) {frm toB : Nat} (h : toB < frm) :
    getLogs world frm toB = [] := by
  unfold getLogs
  rw [List.filter_eq_nil_iff]
  intro e _
  simp only [inRange, Bool.and_eq_true, decide_eq_true_eq, not_and]
  omega

lemma getLogs_split (world : List SwapEvent) (hs : blockSorted world)
    {A M B : Nat} (hAM : A ≤ M) (hMB : M < B) :
    getLogs world A B = getLogs world A M ++ getLogs world (M + 1) B := by
  induction world with
  | nil => rfl
  | cons x xs ih =>
    rcases hs with _ | ⟨hx, hxs⟩
    by_cases hxM : x.blockNumber ≤ M
    · have h1 : inRange A B x = inRange A M x := by
        simp only [inRange]
        have hB : decide (x.blockNumber ≤ B) = true := by
          simp only [decide_eq_true_eq]; omega
        have hM : decide (x.blockNumber ≤ M) = true := by
          simp only [decide_eq_true_eq]; omega
        rw [hB, hM]
      have h2 : inRange (M + 1) B x = false := by
        simp only [inRange, Bool.and_eq_false_iff, decide_eq_false_iff_not]
        left; omega
      simp only [getLogs, List.filter_cons, h1, h2] at *
      cases hc : inRange A M x <;> simp [hc, ih hxs]
    · have hall : ∀ e ∈ x :: xs, M < e.blockNumber := by
        intro e he
        rcases List.mem_cons.mp he with rfl | he
        · omega
        · have := hx e he; omega
      have hAM' : getLogs (x :: xs) A M = [] := by
        unfold getLogs
        rw [List.filter_eq_nil_iff]
        intro e he
        simp only [inRange, Bool.and_eq_true, decide_eq_true_eq, not_and]
        intro _
        have := hall e he; omega
      have hAB : getLogs (x :: xs) A B = getLogs (x :: xs) (M + 1) B := by
        unfold getLogs
        apply List.filter_congr
        intro e he
        have hm := hall e he
        simp only [inRange]
        have hA : decide (A ≤ e.blockNumber) = true := by
          simp only [decide_eq_true_eq]; omega
        have hM1 : decide (M + 1 ≤ e.blockNumber) = true := by
          simp only [decide_eq_true_eq]; omega
        rw [hA, hM1]
      rw [hAM', hAB]; rfl

lemma getLogs_mid_split (world : List SwapEvent) (hs : blockSorted world)
    (frm toB : Nat) :
    getLogs world frm toB =
      getLogs world frm ((frm + toB) / 2) ++ getLogs world ((frm + toB) / 2 + 1) toB := by
  rcases Nat.lt_trichotomy frm toB with h | h | h
  · exact getLogs_split world hs (by omega) (by omega)
  · subst h
    have hmid : (frm + frm) / 2 = frm := by omega
    rw [hmid, getLogs_nil_of_lt world (show frm < frm + 1 by omega)]
    simp
  · rw [getLogs_nil_of_lt world h,
        getLogs_nil_of_lt world (show (frm + toB) / 2 < frm by omega),
        getLogs_nil_of_lt world (show toB < (frm + toB) / 2 + 1 by omega)]
    rfl

lemma fetch_swap_events_sound (world : List SwapEvent)
    (tooLarge : Nat → Nat → Bool) (hs : blockSorted world) :
    ∀ fuel frm toB res, fetch_swap_events world tooLarge fuel frm toB = some res →
      res = getLogs world frm toB := by
  intro fuel
  induction fuel with
  | zero => intro frm toB res h; simp [fetch_swap_events] at h
  | succ n ih =>
    intro frm toB res h
    rw [fetch_swap_events] at h
    by_cases ht : tooLarge frm toB
    · simp only [ht, if_true] at h
      cases hl : fetch_swap_events world tooLarge n frm ((frm + toB) / 2) with
      | none => rw [hl] at h; cases hr : fetch_swap_events world tooLarge n ((frm + toB) / 2 + 1) toB <;>
                  rw [hr] at h <;> simp at h
      | some left =>
        cases hr : fetch_swap_events world tooLarge n ((frm + toB) / 2 + 1) toB with
        | none => rw [hl, hr] at h; simp at h
        | some right =>
          rw [hl, hr] at h
          simp only [Option.some.injEq] at h
          rw [← h, ih _ _ _ hl, ih _ _ _ hr]
          exact (getLogs_mid_split world hs frm toB).symm
    · simp only [ht, Bool.false_eq_true, if_false, Option.some.injEq] at h
      exact h.symm

/-- Claim C1 (code bug in `scripts/fetch_swaps.py`): for a block-sorted
event stream and any split point `A ≤ M < B`, fetching `[A, B]` directly
equals fetching `[A, M]` and `[M+1, B]` and concatenating, and whenever
the recursive bisection of `fetch_swap_events` completes it delivers
exactly the direct answer, in the same order — but the block-window
variant's top-level write delivers nothing on the -32005 path, because
it iterates the unassigned local `events` instead of `temp_data`. -/
theorem C1_bisection_semantics (world : List SwapEvent)
    (tooLarge : Nat → Nat → Bool) (A M B : Nat)
    (hs : blockSorted world) (hAM : A ≤ M) (hMB : M < B) :
    (getLogs world A B = getLogs world A M ++ getLogs world (M + 1) B) ∧
    (∀ fuel res, fetch_swap_events world tooLarge fuel A B = some res →
      res = getLogs world A B) ∧
    (tooLarge A B = true → fetch_swaps_written world tooLarge A B = none) :=
  ⟨getLogs_split world hs hAM hMB,
   fun fuel res h => fetch_swap_events_sound world tooLarge hs fuel A B res h,
   fun ht => by simp [fetch_swaps_written, ht]⟩

/-- A small sorted world used by concrete witnesses: two events at
blocks 2 and 5. -/
def wWorld : List SwapEvent :=
  [⟨"0xPoolA", 2, 0, 5, 1⟩, ⟨"0xPoolA", 5, 1, 7, 1⟩]

theorem C1_bisection_semantics_witness :
    blockSorted wWorld ∧ 1 ≤ 3 ∧ 3 < 6 ∧
    ((getLogs wWorld 1 6 = getLogs wWorld 1 3 ++ getLogs wWorld (3 + 1) 6) ∧
     (∀ fuel res, fetch_swap_events wWorld (fun _ _ => true) fuel 1 6 = some res →
       res = getLogs wWorld 1 6) ∧
     ((fun _ _ => true : Nat → Nat → Bool) 1 6 = true →
       fetch_swaps_written wWorld (fun _ _ => true) 1 6 = none)) :=
  ⟨by decide, by decide, by decide,
   C1_bisection_semantics wWorld (fun _ _ => true) 1 3 6 (by decide) (by decide) (by decide)⟩

/-- Claim C3 (code bug): the bisection recursion is not well-founded on
a single-block range.  When the provider keeps rejecting with -32005,
`fetch_swap_events` on `[100, 100]` computes `mid = 100` and recurses on
the identical range `[100, 100]`, so for every recursion-depth budget
`fuel` it exhausts the budget (`none`) instead of surfacing the failure
of the unsplittable single-block range. -/
theorem C3_single_block_no_termination :
    ∀ fuel : Nat, fetch_swap_events [] (fun _ _ => true) fuel 100 100 = none := by
  intro fuel
  induction fuel with
  | zero => rfl
  | succ n ih =>
    rw [fetch_swap_events]
    simp only [if_true]
    have hmid : (100 + 100) / 2 = 100 := by norm_num
    rw [hmid, ih]

/-- `timestamp_to_block` (`scripts/fetch_swaps_daily.py` lines 326-338):
binary search driven by the block→timestamp oracle `blockTs`
(`w3.eth.get_block(mid).timestamp`); `while low < high` with
`mid = (low + high) // 2`, moving `low` past `mid` when the midpoint
timestamp is still below the target, else pulling `high` down to `mid`. -/
def timestamp_to_block (blockTs : Nat → Nat) (target_ts : Nat)
    (low high : Nat) : Nat :=
  if h : low < high then
    if blockTs ((low + high) / 2) < target_ts then
      timestamp_to_block blockTs target_ts ((low + high) / 2 + 1) high
    else
      timestamp_to_block blockTs target_ts low ((low + high) / 2)
  else low
termination_by high - low
decreasing_by
  · omega
  · omega

lemma ttb_stop (blockTs : Nat → Nat) (target_ts : Nat) {low high : Nat}
    (h : ¬ low < high) :
    timestamp_to_block blockTs target_ts low high = low := by
  rw [timestamp_to_block]
  simp [h]

lemma ttb_go_right (blockTs : Nat → Nat) (target_ts : Nat) {low high : Nat}
    (h : low < high) (hm : blockTs ((low + high) / 2) < target_ts) :
    timestamp_to_block blockTs target_ts low high =
      timestamp_to_block blockTs target_ts ((low + high) / 2 + 1) high := by
  rw [timestamp_to_block]
  simp [h, hm]

lemma ttb_go_left (blockTs : Nat → Nat) (target_ts : Nat) {low high : Nat}
    (h : low < high) (hm : ¬ blockTs ((low + high) / 2) < target_ts) :
    timestamp_to_block blockTs target_ts low high =
      timestamp_to_block blockTs target_ts low ((low + high) / 2) := by
  rw [timestamp_to_block]
  simp [h, hm]

lemma ttb_ge (blockTs : Nat → Nat) (target_ts : Nat) :
    ∀ n low high, high - low ≤ n → low ≤ high → target_ts ≤ blockTs high →
      target_ts ≤ blockTs (timestamp_to_block blockTs target_ts low high) := by
  intro n
  induction n with
  | zero =>
    intro low high hn hlh ht
    have heq : low = high := by omega
    rw [ttb_stop blockTs target_ts (by omega), heq]
    exact ht
  | succ n ih =>
    intro low high hn hlh ht
    by_cases hlt : low < high
    · by_cases hm : blockTs ((low + high) / 2) < target_ts
      · rw [ttb_go_right blockTs target_ts hlt hm]
        exact ih _ _ (by omega) (by omega) ht
      · rw [ttb_go_left blockTs target_ts hlt hm]
        exact ih _ _ (by omega) (by omega) (by omega)
    · rw [ttb_stop blockTs target_ts hlt]
      have heq : low = high := by omega
      rw [heq]; exact ht

lemma ttb_min (blockTs : Nat → Nat) (target_ts : Nat)
    (hmono : ∀ i j, i ≤ j → blockTs i ≤ blockTs j) :
    ∀ n low high, high - low ≤ n →
      ∀ b, low ≤ b → b < timestamp_to_block blockTs target_ts low high →
        blockTs b < target_ts := by
  intro n
  induction n with
  | zero =>
    intro low high hn b hb hbr
    rw [ttb_stop blockTs target_ts (by omega)] at hbr
    omega
  | succ n ih =>
    intro low high hn b hb hbr
    by_cases hlt : low < high
    · by_cases hm : blockTs ((low + high) / 2) < target_ts
      · rw [ttb_go_right blockTs target_ts hlt hm] at hbr
        by_cases hbm : b ≤ (low + high) / 2
        · have := hmono b ((low + high) / 2) hbm
          omega
        · exact ih _ _ (by omega) b (by omega) hbr
      · rw [ttb_go_left blockTs target_ts hlt hm] at hbr
        exact ih _ _ (by omega) b hb hbr
    · rw [ttb_stop blockTs target_ts hlt] at hbr
      omega

/-- Claim C4: with a non-decreasing block→timestamp oracle and a target
timestamp within the observed range (the chain head `high` is no older
than the target), `timestamp_to_block` starting from the source defaults
`low = 0`, `high = head` returns the smallest block number whose
timestamp is ≥ `target_ts`: its own timestamp reaches the target and
every smaller block's timestamp is strictly below it. -/
theorem C4_timestamp_to_block_least (blockTs : Nat → Nat) (target_ts high : Nat)
    (hmono : ∀ i j, i ≤ j → blockTs i ≤ blockTs j)
    (hin : target_ts ≤ blockTs high) :
    target_ts ≤ blockTs (timestamp_to_block blockTs target_ts 0 high) ∧
    ∀ b, b < timestamp_to_block blockTs target_ts 0 high →
      blockTs b < target_ts :=
  ⟨ttb_ge blockTs target_ts high 0 high (by omega) (Nat.zero_le _) hin,
   fun b hb => ttb_min blockTs target_ts hmono high 0 high (by omega) b (Nat.zero_le _) hb⟩

theorem C4_timestamp_to_block_least_witness :
    (∀ i j : Nat, i ≤ j → 10 * i ≤ 10 * j) ∧ 25 ≤ 10 * 10 ∧
    (25 ≤ 10 * timestamp_to_block (fun b => 10 * b) 25 0 10 ∧
     ∀ b, b < timestamp_to_block (fun b => 10 * b) 25 0 10 → 10 * b < 25) :=
  ⟨fun i j h => by omega, by omega,
   C4_timestamp_to_block_least (fun b => 10 * b) 25 10
     (fun i j h => Nat.mul_le_mul_left 10 h) (by decide)⟩

lemma ttb_le_iff (bts : Nat → Nat) (head : Nat)
    (hmono : ∀ i j, i ≤ j → bts i ≤ bts j) {t : Nat} (ht : t ≤ bts head)
    (b : Nat) :
    timestamp_to_block bts t 0 head ≤ b ↔ t ≤ bts b := by
  constructor
  · intro h
    calc t ≤ bts (timestamp_to_block bts t 0 head) :=
          ttb_ge bts t head 0 head (by omega) (Nat.zero_le _) ht
      _ ≤ bts b := hmono _ _ h
  · intro h
    by_contra hlt
    push_neg at hlt
    have := ttb_min bts t hmono head 0 head (by omega) b (Nat.zero_le _) hlt
    omega

lemma ttb_mono_target (bts : Nat → Nat) (head : Nat)
    (hmono : ∀ i j, i ≤ j → bts i ≤ bts j) {t1 t2 : Nat}
    (h12 : t1 ≤ t2) (h2 : t2 ≤ bts head) :
    timestamp_to_block bts t1 0 head ≤ timestamp_to_block bts t2 0 head := by
  by_contra hlt
  push_neg at hlt
  have hmin := ttb_min bts t1 hmono head 0 head (by omega) _ (Nat.zero_le _) hlt
  have hge := ttb_ge bts t2 head 0 head (by omega) (Nat.zero_le _) h2
  omega

/-- The loop of `split_days` (`scripts/fetch_swaps_daily.py` lines
342-360): starting at `dayStart` (a midnight-GMT timestamp) and while
`dayStart < ts1`, resolve `frm_blk = timestamp_to_block(day_start)` and
`to_blk = timestamp_to_block(next_day) - 1` (an `Int`, since the Python
subtraction can go to -1), emit the triple only when `to_blk ≥ frm_blk`,
and step a whole day of 86400 seconds.  The third component stands for
the `YYYYMMDD` label derived from `day_start`. -/
def split_days_aux (bts : Nat → Nat) (head ts1 dayStart : Nat) :
    List (Nat × Nat × Nat) :=
  if _h : dayStart < ts1 then
    (if (timestamp_to_block bts dayStart 0 head : Int) ≤
        (timestamp_to_block bts (dayStart + 86400) 0 head : Int) - 1 then
      [(timestamp_to_block bts dayStart 0 head,
        ((timestamp_to_block bts (dayStart + 86400) 0 head : Int) - 1).toNat,
        dayStart)]
    else [])
    ++ split_days_aux bts head ts1 (dayStart + 86400)
  else []
termination_by ts1 - dayStart
decreasing_by omega

/-- `split_days(start_date, end_date, w3)`: the two ISO dates are
midnight-GMT instants `ts0 < ts1`; the loop runs from `ts0`. -/
def split_days (bts : Nat → Nat) (head ts0 ts1 : Nat) :
    List (Nat × Nat × Nat) :=
  split_days_aux bts head ts1 ts0

lemma sda_stop (bts : Nat → Nat) (head : Nat) {ts1 dayStart : Nat}
    (h : ¬ dayStart < ts1) :
    split_days_aux bts head ts1 dayStart = [] := by
  rw [split_days_aux]
  simp [h]

lemma sda_step (bts : Nat → Nat) (head : Nat) {ts1 dayStart : Nat}
    (h : dayStart < ts1) :
    split_days_aux bts head ts1 dayStart =
      (if (timestamp_to_block bts dayStart 0 head : Int) ≤
          (timestamp_to_block bts (dayStart + 86400) 0 head : Int) - 1 then
        [(timestamp_to_block bts dayStart 0 head,
          ((timestamp_to_block bts (dayStart + 86400) 0 head : Int) - 1).toNat,
          dayStart)]
      else [])
      ++ split_days_aux bts head ts1 (dayStart + 86400) := by
  rw [split_days_aux]
  simp [h]

lemma day_cover (bts : Nat → Nat) (head : Nat)
    (hmono : ∀ i j, i ≤ j → bts i ≤ bts j) (d : Nat)
    (hd : d ≤ bts head) (hnext : d + 86400 ≤ bts head) (b : Nat) :
    (∃ r ∈ (if (timestamp_to_block bts d 0 head : Int) ≤
              (timestamp_to_block bts (d + 86400) 0 head : Int) - 1 then
            [(timestamp_to_block bts d 0 head,
              ((timestamp_to_block bts (d + 86400) 0 head : Int) - 1).toNat, d)]
          else []), r.1 ≤ b ∧ b ≤ r.2.1) ↔
      (d ≤ bts b ∧ bts b < d + 86400) := by
  have iff1 := ttb_le_iff bts head hmono hd b
  have iff2 := ttb_le_iff bts head hmono hnext b
  by_cases hc : (timestamp_to_block bts d 0 head : Int) ≤
      (timestamp_to_block bts (d + 86400) 0 head : Int) - 1
  · have hFN : timestamp_to_block bts d 0 head <
        timestamp_to_block bts (d + 86400) 0 head := by omega
    have hto : ((timestamp_to_block bts (d + 86400) 0 head : Int) - 1).toNat =
        timestamp_to_block bts (d + 86400) 0 head - 1 := by omega
    simp only [hc, if_true, List.mem_singleton, exists_eq_left, hto]
    constructor
    · rintro ⟨h1, h2⟩
      refine ⟨iff1.mp h1, ?_⟩
      by_contra hge
      push_neg at hge
      have := iff2.mpr hge
      omega
    · rintro ⟨h1, h2⟩
      refine ⟨iff1.mpr h1, ?_⟩
      have : ¬ timestamp_to_block bts (d + 86400) 0 head ≤ b := by
        intro hle
        have := iff2.mp hle
        omega
      omega
  · simp only [hc, if_false, List.not_mem_nil, false_and, exists_false,
      exists_prop, false_iff, not_and, not_lt]
    intro h1
    by_contra hlt
    push_neg at hlt
    have hF := iff1.mpr h1
    have : ¬ timestamp_to_block bts (d + 86400) 0 head ≤ b := by
      intro hle
      have := iff2.mp hle
      omega
    omega

lemma split_days_aux_cover (bts : Nat → Nat) (head : Nat)
    (hmono : ∀ i j, i ≤ j → bts i ≤ bts j) (ts1 : Nat)
    (hts1 : ts1 ≤ bts head) :
    ∀ k dayStart, ts1 = dayStart + 86400 * k →
      ∀ b, (∃ r ∈ split_days_aux bts head ts1 dayStart, r.1 ≤ b ∧ b ≤ r.2.1) ↔
        (dayStart ≤ bts b ∧ bts b < ts1) := by
  intro k
  induction k with
  | zero =>
    intro d hk b
    rw [sda_stop bts head (by omega)]
    simp only [List.not_mem_nil, false_and, exists_false, exists_prop, false_iff,
      not_and, not_lt]
    omega
  | succ n ih =>
    intro d hk b
    rw [sda_step bts head (by omega)]
    have hsplit : (∃ r ∈ (if (timestamp_to_block bts d 0 head : Int) ≤
              (timestamp_to_block bts (d + 86400) 0 head : Int) - 1 then
            [(timestamp_to_block bts d 0 head,
              ((timestamp_to_block bts (d + 86400) 0 head : Int) - 1).toNat, d)]
          else []) ++ split_days_aux bts head ts1 (d + 86400),
          r.1 ≤ b ∧ b ≤ r.2.1) ↔
        ((∃ r ∈ (if (timestamp_to_block bts d 0 head : Int) ≤
              (timestamp_to_block bts (d + 86400) 0 head : Int) - 1 then
            [(timestamp_to_block bts d 0 head,
              ((timestamp_to_block bts (d + 86400) 0 head : Int) - 1).toNat, d)]
          else []), r.1 ≤ b ∧ b ≤ r.2.1) ∨
         (∃ r ∈ split_days_aux bts head ts1 (d + 86400), r.1 ≤ b ∧ b ≤ r.2.1)) := by
      simp only [List.mem_append, or_and_right, exists_or]
    rw [hsplit, day_cover bts head hmono d (by omega) (by omega) b,
      ih (d + 86400) (by omega) b]
    omega

lemma split_days_aux_lb (bts : Nat → Nat) (head : Nat)
    (hmono : ∀ i j, i ≤ j → bts i ≤ bts j) (ts1 : Nat)
    (hts1 : ts1 ≤ bts head) :
    ∀ k dayStart, ts1 = dayStart + 86400 * k →
      ∀ r ∈ split_days_aux bts head ts1 dayStart,
        timestamp_to_block bts dayStart 0 head ≤ r.1 := by
  intro k
  induction k with
  | zero =>
    intro d hk r hr
    rw [sda_stop bts head (by omega)] at hr
    exact absurd hr (List.not_mem_nil r)
  | succ n ih =>
    intro d hk r hr
    rw [sda_step bts head (by omega)] at hr
    rcases List.mem_append.mp hr with h1 | h2
    · by_cases hc : (timestamp_to_block bts d 0 head : Int) ≤
          (timestamp_to_block bts (d + 86400) 0 head : Int) - 1
      · simp only [hc, if_true, List.mem_singleton] at h1
        subst h1
        exact Nat.le_refl _
      · simp only [hc, if_false, List.not_mem_nil] at h1
    · have hrest := ih (d + 86400) (by omega) r h2
      have hmt := ttb_mono_target bts head hmono
        (show d ≤ d + 86400 by omega) (show d + 86400 ≤ bts head by omega)
      omega

lemma split_days_aux_pairwise (bts : Nat → Nat) (head : Nat)
    (hmono : ∀ i j, i ≤ j → bts i ≤ bts j) (ts1 : Nat)
    (hts1 : ts1 ≤ bts head) :
    ∀ k dayStart, ts1 = dayStart + 86400 * k →
      List.Pairwise (fun r s : Nat × Nat × Nat => r.2.1 < s.1)
        (split_days_aux bts head ts1 dayStart) := by
  intro k
  induction k with
  | zero =>
    intro d hk
    rw [sda_stop bts head (by omega)]
    exact List.Pairwise.nil
  | succ n ih =>
    intro d hk
    rw [sda_step bts head (by omega)]
    apply List.pairwise_append.mpr
    refine ⟨?_, ih (d + 86400) (by omega), ?_⟩
    · by_cases hc : (timestamp_to_block bts d 0 head : Int) ≤
          (timestamp_to_block bts (d + 86400) 0 head : Int) - 1
      · simp only [hc, if_true]
        exact List.pairwise_singleton _ _
      · simp only [hc, if_false]
        exact List.Pairwise.nil
    · intro r hr s hs
      by_cases hc : (timestamp_to_block bts d 0 head : Int) ≤
          (timestamp_to_block bts (d + 86400) 0 head : Int) - 1
      · simp only [hc, if_true, List.mem_singleton] at hr
        subst hr
        have hslb := split_days_aux_lb bts head hmono ts1 hts1 n (d + 86400)
          (by omega) s hs
        simp only
        omega
      · simp only [hc, if_false, List.not_mem_nil] at hr

/-- Claim C5: for a valid date pair (midnight-GMT instants a whole
number of days apart) and a non-decreasing block→timestamp oracle whose
chain head is no older than `ts1`, the ranges emitted by `split_days`
are pairwise non-overlapping, listed left to right, and jointly cover
exactly the blocks whose timestamp lies in `[ts0, ts1)` — no gaps, no
overlaps; a day whose range would be empty is skipped without error
(the emission guard), which the exact-coverage equivalence accounts
for. -/
theorem C5_split_days_partition (bts : Nat → Nat) (head ts0 ts1 nDays : Nat)
    (hmono : ∀ i j, i ≤ j → bts i ≤ bts j)
    (hdays : ts1 = ts0 + 86400 * nDays)
    (hhead : ts1 ≤ bts head) :
    List.Pairwise (fun r s : Nat × Nat × Nat => r.2.1 < s.1)
      (split_days bts head ts0 ts1) ∧
    ∀ b, (∃ r ∈ split_days bts head ts0 ts1, r.1 ≤ b ∧ b ≤ r.2.1) ↔
      (ts0 ≤ bts b ∧ bts b < ts1) :=
  ⟨split_days_aux_pairwise bts head hmono ts1 hhead nDays ts0 hdays,
   split_days_aux_cover bts head hmono ts1 hhead nDays ts0 hdays⟩

theorem C5_split_days_partition_witness :
    (∀ i j : Nat, i ≤ j → i ≤ j) ∧ (172800 : Nat) = 0 + 86400 * 2 ∧
    (172800 : Nat) ≤ 200000 ∧
    (List.Pairwise (fun r s : Nat × Nat × Nat => r.2.1 < s.1)
      (split_days (fun b => b) 200000 0 172800) ∧
     ∀ b, (∃ r ∈ split_days (fun b => b) 200000 0 172800, r.1 ≤ b ∧ b ≤ r.2.1) ↔
       (0 ≤ b ∧ b < 172800)) :=
  ⟨fun _ _ h => h, by norm_num, by norm_num,
   C5_split_days_partition (fun b => b) 200000 0 172800 2
     (fun _ _ h => h) (by norm_num) (by norm_num)⟩

/-! ### Price oracle, caches and call counting
(`scripts/fetch_swaps_daily.py` lines 36-159) -/

/-- `WETH = Web3.to_checksum_address("0xC02a…")`. -/
def WETH : String := "0xC02aaA39b223FE8D0A0E5C4F27eAD9083C756Cc2"

/-- `USDT`. -/
def USDT : String := "0xdAC17F958D2ee523a2206206994597C13D831ec7"

/-- `STABLES = {USDT}`. -/
def STABLES : List String := [USDT]

/-- `WETH_USDC_POOL`. -/
def WETH_USDC_POOL : String := "0x88e6A0c2dDD26FEEb64F039a2c41296FcB3f5640"

/-- The read-only contract surface of the chain, as the scripts call it.
`none` models the underlying call raising an exception. -/
structure Chain where
  slot0At : String → Nat → Option Nat
  slot0Latest : String → Option Nat
  token0Call : String → Option String
  token1Call : String → Option String
  decimalsCall : String → Option Nat
  symbolCall : String → Option String
  blockTsCall : Nat → Option Nat

/-- Counters of the RPC lookups performed: pool-state (`slot0`) calls
and all other contract/chain calls. -/
structure Counts where
  slot0 : Nat
  contract : Nat
deriving DecidableEq, Repr

/-- The module-level caches of `fetch_swaps_daily.py` (lines 44-48):
`_decimals_cache`, `_symbol_cache`, `_weth_usd_cache`, `_block_ts_cache`,
`_token_weth_cache`; newest entries are consed in front, `List.lookup`
gives the Python-dict read.  The call counters ride along. -/
structure PState where
  decimals_cache : List (String × Nat)
  symbol_cache : List (String × String)
  weth_usd_cache : List (Nat × ℚ)
  block_ts_cache : List (Nat × Nat)
  token_weth_cache : List ((String × Nat) × Option ℚ)
  counts : Counts
deriving DecidableEq, Repr

/-- The empty initial state. -/
def pstate0 : PState :=
  ⟨[], [], [], [], [], ⟨0, 0⟩⟩

def bumpSlot0 (st : PState) (n : Nat) : PState :=
  { st with counts := { st.counts with slot0 := st.counts.slot0 + n } }

def bumpContract (st : PState) (n : Nat) : PState :=
  { st with counts := { st.counts with contract := st.counts.contract + n } }

/-- `erc20_decimals` (lines 54-72): serve from `_decimals_cache`, else
one contract call, defaulting to 18 on failure, then cache. -/
def erc20_decimals (ch : Chain) (st : PState) (token : String) :
    Nat × PState :=
  match st.decimals_cache.lookup token with
  | some d => (d, st)
  | none =>
    let d := (ch.decimalsCall token).getD 18
    (d, { bumpContract st 1 with decimals_cache := (token, d) :: st.decimals_cache })

/-- `erc20_symbol` (lines 75-96): serve from `_symbol_cache`, else one
contract call, defaulting to "UNK" on failure (which also covers the
unprintable-symbol re-raise), then cache. -/
def erc20_symbol (ch : Chain) (st : PState) (token : String) :
    String × PState :=
  match st.symbol_cache.lookup token with
  | some s => (s, st)
  | none =>
    let s := (ch.symbolCall token).getD "UNK"
    (s, { bumpContract st 1 with symbol_cache := (token, s) :: st.symbol_cache })

/-- `sqrtpx96_to_ratio` (lines 102-104): `(Decimal(x) ** 2) / Decimal(2**192)`,
the token1/token0 ratio. -/
def ratio_of_sqrtpx96 (x : Nat) : ℚ :=
  ((x : ℚ) ^ 2) / ((2 : ℚ) ^ 192)

/-- `safe_slot0` (lines 107-111): try `slot0` pinned at `block`, falling
back to the latest state; `none` means both raised. -/
def safe_slot0 (ch : Chain) (st : PState) (pool : String) (block : Nat) :
    Option Nat × PState :=
  match ch.slot0At pool block with
  | some v => (some v, bumpSlot0 st 1)
  | none => (ch.slot0Latest pool, bumpSlot0 st 2)

/-- `weth_price_usd` (lines 114-121): serve from `_weth_usd_cache`, else
read `slot0` of the WETH/USDC pool at `block` and convert with
`Decimal(10 ** (6 - 18))`; the outer `none` models the call raising. -/
def weth_price_usd (ch : Chain) (st : PState) (block : Nat) :
    Option ℚ × PState :=
  match st.weth_usd_cache.lookup block with
  | some p => (some p, st)
  | none =>
    match safe_slot0 ch st WETH_USDC_POOL block with
    | (none, st1) => (none, st1)
    | (some s, st1) =>
      let price := ratio_of_sqrtpx96 s * (10 : ℚ) ^ ((6 : ℤ) - 18)
      (some price, { st1 with weth_usd_cache := (block, price) :: st1.weth_usd_cache })

/-- The candidate-pool loop of `token_price_in_weth` (lines 137-156):
each iteration reads `token0()`, `token1()`, `slot0` and the two decimal
counts, orients the ratio, and on any exception (or a pool not pairing
`token` with WETH) continues with the next pool.  The division
`1 / (r * 10^(d0-d1))` raises `DivisionByZero` in `Decimal` when the
denominator is zero, hence the explicit guard. -/
def token_pools_loop (ch : Chain) (token : String) (block : Nat) :
    PState → List String → Option ℚ × PState
  | st, [] => (none, st)
  | st, pool_addr :: rest =>
    match ch.token0Call pool_addr with
    | none => token_pools_loop ch token block (bumpContract st 1) rest
    | some t0 =>
      match ch.token1Call pool_addr with
      | none => token_pools_loop ch token block (bumpContract st 2) rest
      | some t1 =>
        match safe_slot0 ch (bumpContract st 2) pool_addr block with
        | (none, st1) => token_pools_loop ch token block st1 rest
        | (some s, st1) =>
          match erc20_decimals ch st1 t0 with
          | (d0, st2) =>
            match erc20_decimals ch st2 t1 with
            | (d1, st3) =>
              let r := ratio_of_sqrtpx96 s
              if t0 = token ∧ t1 = WETH then
                if r * (10 : ℚ) ^ ((d0 : ℤ) - (d1 : ℤ)) = 0 then
                  token_pools_loop ch token block st3 rest
                else
                  (some (1 / (r * (10 : ℚ) ^ ((d0 : ℤ) - (d1 : ℤ)))), st3)
              else if t1 = token ∧ t0 = WETH then
                (some (r * (10 : ℚ) ^ ((d0 : ℤ) - (d1 : ℤ))), st3)
              else
                token_pools_loop ch token block st3 rest

/-- `token_price_in_weth` (lines 124-159): WETH prices at 1; otherwise
serve from `_token_weth_cache`; otherwise walk the indexed candidate
pools (`weth_pools.get(token, [])`) and cache the first usable price —
or cache `None` when no candidate worked. -/
def token_price_in_weth (ch : Chain) (st : PState)
    (weth_pools : List (String × List String)) (token : String) (block : Nat) :
    Option ℚ × PState :=
  if token = WETH then (some 1, st)
  else
    match st.token_weth_cache.lookup (token, block) with
    | some v => (v, st)
    | none =>
      match token_pools_loop ch token block st ((weth_pools.lookup token).getD []) with
      | (some price, st1) =>
        (some price,
         { st1 with token_weth_cache := ((token, block), some price) :: st1.token_weth_cache })
      | (none, st1) =>
        (none,
         { st1 with token_weth_cache := ((token, block), none) :: st1.token_weth_cache })

lemma erc20_decimals_slot0_count (ch : Chain) (st : PState) (token : String) :
    ((erc20_decimals ch st token).2).counts.slot0 = st.counts.slot0 := by
  unfold erc20_decimals
  cases st.decimals_cache.lookup token <;> simp [bumpContract]

lemma erc20_decimals_token_weth_cache (ch : Chain) (st : PState) (token : String) :
    ((erc20_decimals ch st token).2).token_weth_cache = st.token_weth_cache := by
  unfold erc20_decimals
  cases st.decimals_cache.lookup token <;> simp [bumpContract]

/-- Claim C10: `token_price_in_weth` also caches negative results.
Whenever a call returns `None` with resulting cache state `st1`, the key
`(token, block)` now maps to `None` in `_token_weth_cache`, so an
immediately repeated call returns `None` again while leaving the state —
including both RPC call counters — untouched: no pool or contract lookup
is performed. -/
theorem C10_none_is_cached (ch : Chain) (st st1 : PState)
    (weth_pools : List (String × List String)) (token : String) (block : Nat)
    (h : token_price_in_weth ch st weth_pools token block = (none, st1)) :
    token_price_in_weth ch st1 weth_pools token block = (none, st1) := by
  unfold token_price_in_weth at h ⊢
  by_cases hw : token = WETH
  · simp only [hw, if_true] at h
    exact absurd (congrArg Prod.fst h) (by simp)
  · simp only [hw, if_false] at h ⊢
    cases hc : st.token_weth_cache.lookup (token, block) with
    | some v =>
      rw [hc] at h
      have hv : v = none := congrArg Prod.fst h
      have hst : st = st1 := congrArg Prod.snd h
      rw [← hst, hc, hv]
    | none =>
      rw [hc] at h
      rcases hl : token_pools_loop ch token block st
          ((weth_pools.lookup token).getD []) with ⟨pr, stL⟩
      rw [hl] at h
      cases pr with
      | some p =>
        exact absurd (congrArg Prod.fst h) (by simp)
      | none =>
        have hst : st1 =
            { stL with token_weth_cache :=
                ((token, block), none) :: stL.token_weth_cache } :=
          (congrArg Prod.snd h).symm
        rw [hst]
        simp [List.lookup]

def c10Chain : Chain :=
  { slot0At := fun _ _ => none, slot0Latest := fun _ => none,
    token0Call := fun _ => none, token1Call := fun _ => none,
    decimalsCall := fun _ => none, symbolCall := fun _ => none,
    blockTsCall := fun _ => none }

theorem C10_none_is_cached_witness :
    token_price_in_weth c10Chain pstate0 [] "0xTokenX" 5 =
      (none, (token_price_in_weth c10Chain pstate0 [] "0xTokenX" 5).2) ∧
    token_price_in_weth c10Chain
        ((token_price_in_weth c10Chain pstate0 [] "0xTokenX" 5).2) [] "0xTokenX" 5 =
      (none, (token_price_in_weth c10Chain pstate0 [] "0xTokenX" 5).2) :=
  ⟨by decide,
   C10_none_is_cached c10Chain pstate0 _ [] "0xTokenX" 5 (by decide)⟩

/-- Claim C6: price resolution is served from the caches on repetition.
On the happy path — a fresh `(token, block)` key, one indexed candidate
pool whose `token0`/`token1` are WETH and the token and whose pinned
`slot0` read succeeds — the first `token_price_in_weth` call performs
exactly one pool-state (`slot0`) lookup and yields a price; the repeated
call returns the identical value and the identical state (so zero
further lookups of any kind), served entirely from `_token_weth_cache`.
Likewise `weth_price_usd` on a fresh block performs exactly one `slot0`
lookup and its repetition is a pure `_weth_usd_cache` hit. -/
theorem C6_price_cache_idempotent (ch : Chain) (st : PState)
    (weth_pools : List (String × List String)) (token p : String)
    (block s sw : Nat)
    (hW : token ≠ WETH)
    (hfresh : st.token_weth_cache.lookup (token, block) = none)
    (hidx : weth_pools.lookup token = some [p])
    (ht0 : ch.token0Call p = some WETH)
    (ht1 : ch.token1Call p = some token)
    (hs : ch.slot0At p block = some s)
    (hwfresh : st.weth_usd_cache.lookup block = none)
    (hwslot : ch.slot0At WETH_USDC_POOL block = some sw) :
    ((token_price_in_weth ch st weth_pools token block).2.counts.slot0 =
      st.counts.slot0 + 1) ∧
    ((token_price_in_weth ch st weth_pools token block).1.isSome = true) ∧
    (token_price_in_weth ch ((token_price_in_weth ch st weth_pools token block).2)
        weth_pools token block =
      token_price_in_weth ch st weth_pools token block) ∧
    ((weth_price_usd ch st block).2.counts.slot0 = st.counts.slot0 + 1) ∧
    (weth_price_usd ch ((weth_price_usd ch st block).2) block =
      weth_price_usd ch st block) := by
  have hW' : WETH ≠ token := Ne.symm hW
  rcases hd0 : erc20_decimals ch (bumpSlot0 (bumpContract st 2) 1) WETH with ⟨d0, stA⟩
  rcases hd1 : erc20_decimals ch stA token with ⟨d1, stB⟩
  have hloop : token_pools_loop ch token block st [p] =
      (some (ratio_of_sqrtpx96 s * (10 : ℚ) ^ ((d0 : ℤ) - (d1 : ℤ))), stB) := by
    simp only [token_pools_loop, ht0, ht1, safe_slot0, hs, hd0, hd1, hW, hW',
      false_and, and_false, if_false, and_self, if_true]
  have hcall : token_price_in_weth ch st weth_pools token block =
      (some (ratio_of_sqrtpx96 s * (10 : ℚ) ^ ((d0 : ℤ) - (d1 : ℤ))),
       { stB with token_weth_cache :=
          ((token, block),
            some (ratio_of_sqrtpx96 s * (10 : ℚ) ^ ((d0 : ℤ) - (d1 : ℤ)))) ::
            stB.token_weth_cache }) := by
    unfold token_price_in_weth
    simp only [hW, if_false, hfresh, hidx, Option.getD_some, hloop]
  have hA : stA.counts.slot0 = st.counts.slot0 + 1 := by
    have h1 := erc20_decimals_slot0_count ch (bumpSlot0 (bumpContract st 2) 1) WETH
    rw [hd0] at h1
    simpa [bumpSlot0, bumpContract] using h1
  have hB : stB.counts.slot0 = st.counts.slot0 + 1 := by
    have h1 := erc20_decimals_slot0_count ch stA token
    rw [hd1] at h1
    simpa [hA] using h1
  have hwcall : weth_price_usd ch st block =
      (some (ratio_of_sqrtpx96 sw * (10 : ℚ) ^ ((6 : ℤ) - 18)),
       { bumpSlot0 st 1 with weth_usd_cache :=
          (block, ratio_of_sqrtpx96 sw * (10 : ℚ) ^ ((6 : ℤ) - 18)) ::
            (bumpSlot0 st 1).weth_usd_cache }) := by
    unfold weth_price_usd
    simp only [hwfresh, safe_slot0, hwslot]
  refine ⟨?_, ?_, ?_, ?_, ?_⟩
  · rw [hcall]; exact hB
  · rw [hcall]; rfl
  · rw [hcall]
    unfold token_price_in_weth
    simp [hW, List.lookup]
  · rw [hwcall]; simp [bumpSlot0]
  · rw [hwcall]
    unfold weth_price_usd
    simp [List.lookup]

def c6Pool : String := "0xPoolT"

def c6Token : String := "0xTokenT"

def c6Chain : Chain :=
  { slot0At := fun q b =>
      if q = c6Pool ∧ b = 7 then some 3
      else if q = WETH_USDC_POOL ∧ b = 7 then some 2 else none,
    slot0Latest := fun _ => none,
    token0Call := fun q => if q = c6Pool then some WETH else none,
    token1Call := fun q => if q = c6Pool then some c6Token else none,
    decimalsCall := fun _ => some 18,
    symbolCall := fun _ => none,
    blockTsCall := fun _ => none }

theorem C6_price_cache_idempotent_witness :
    c6Token ≠ WETH ∧
    pstate0.token_weth_cache.lookup (c6Token, 7) = none ∧
    List.lookup c6Token [(c6Token, [c6Pool])] = some [c6Pool] ∧
    c6Chain.token0Call c6Pool = some WETH ∧
    c6Chain.token1Call c6Pool = some c6Token ∧
    c6Chain.slot0At c6Pool 7 = some 3 ∧
    pstate0.weth_usd_cache.lookup 7 = none ∧
    c6Chain.slot0At WETH_USDC_POOL 7 = some 2 ∧
    (((token_price_in_weth c6Chain pstate0 [(c6Token, [c6Pool])] c6Token 7).2.counts.slot0 =
        pstate0.counts.slot0 + 1) ∧
     ((token_price_in_weth c6Chain pstate0 [(c6Token, [c6Pool])] c6Token 7).1.isSome = true) ∧
     (token_price_in_weth c6Chain
          ((token_price_in_weth c6Chain pstate0 [(c6Token, [c6Pool])] c6Token 7).2)
          [(c6Token, [c6Pool])] c6Token 7 =
        token_price_in_weth c6Chain pstate0 [(c6Token, [c6Pool])] c6Token 7) ∧
     ((weth_price_usd c6Chain pstate0 7).2.counts.slot0 = pstate0.counts.slot0 + 1) ∧
     (weth_price_usd c6Chain ((weth_price_usd c6Chain pstate0 7).2) 7 =
        weth_price_usd c6Chain pstate0 7)) :=
  ⟨by decide, rfl, by decide, by decide, by decide, by decide, rfl, by decide,
   C6_price_cache_idempotent c6Chain pstate0 [(c6Token, [c6Pool])] c6Token c6Pool 7 3 2
     (by decide) rfl (by decide) (by decide) (by decide) (by decide) rfl (by decide)⟩

/-! ### Enrichment (`scripts/fetch_swaps_daily.py` lines 253-301) -/

/-- Block→timestamp with `_block_ts_cache` (lines 264-267); `none` means
`w3.eth.get_block(block)` raised. -/
def block_ts (ch : Chain) (st : PState) (block : Nat) : Option Nat × PState :=
  match st.block_ts_cache.lookup block with
  | some ts => (some ts, st)
  | none =>
    match ch.blockTsCall block with
    | none => (none, bumpContract st 1)
    | some ts =>
      (some ts, { bumpContract st 1 with block_ts_cache := (block, ts) :: st.block_ts_cache })

/-- A written output record: the raw event plus the enrichment fields of
`ev.update(...)`.  On the exception path only `amountUSD = None` is set,
so the other additions stay absent (`none`). -/
structure EnrichedEvent where
  base : SwapEvent
  timestamp : Option Nat
  token0_symbol : Option String
  token1_symbol : Option String
  token0_decimals : Option Nat
  token1_decimals : Option Nat
  amountUSD : Option ℚ
deriving DecidableEq, Repr

/-- The `except` branch (lines 297-299): the event is written with just
`amountUSD = None` added. -/
def fail_record (ev : SwapEvent) : EnrichedEvent :=
  ⟨ev, none, none, none, none, none, none⟩

/-- The price logic of the enrichment loop (lines 271-283).  The outer
`Option` distinguishes an exception (propagating to the event's `except`
handler) from a computed `p0_usd` that may itself be `None`.  Python's
`if p0_w` truthiness makes a zero price fall to `None` without calling
`weth_price_usd`; the sqrtPriceX96 fallback divides by the ratio, which
raises in `Decimal` when it is zero. -/
def price0_usd (ch : Chain) (weth_index : List (String × List String))
    (st : PState) (t0 t1 : String) (block : Nat) (dec0 : Nat)
    (sqrtpx96 : Nat) : Option (Option ℚ) × PState :=
  let step1 : Option (Option ℚ) × PState :=
    if t0 ∈ STABLES then (some (some 1), st)
    else if t0 = WETH then
      match weth_price_usd ch st block with
      | (none, st1) => (none, st1)
      | (some v, st1) => (some (some v), st1)
    else
      match token_price_in_weth ch st weth_index t0 block with
      | (some w, st1) =>
        if w ≠ 0 then
          match weth_price_usd ch st1 block with
          | (none, st2) => (none, st2)
          | (some u, st2) => (some (some (w * u)), st2)
        else (some none, st1)
      | (none, st1) => (some none, st1)
  match step1 with
  | (none, st1) => (none, st1)
  | (some p0, st1) =>
    if p0 = none ∧ t1 = WETH then
      if ratio_of_sqrtpx96 sqrtpx96 = 0 then (none, st1)
      else
        match weth_price_usd ch st1 block with
        | (none, st2) => (none, st2)
        | (some u, st2) =>
          (some (some ((1 / ratio_of_sqrtpx96 sqrtpx96) *
            (10 : ℚ) ^ ((18 : ℤ) - (dec0 : ℤ)) * u)), st2)
    else (some p0, st1)

/-- One iteration of the enrichment loop (lines 254-301): resolve pool
metadata (`pool_info[pool]`, whose `KeyError` is the main failure),
symbols, decimals, the cached block timestamp and the USD price; any
exception lands in the `except` branch, which still produces a record
(with `amountUSD = None`) for the unconditional write at line 301. -/
def enrich_event (ch : Chain) (pool_info : List (String × String × String))
    (weth_index : List (String × List String)) (st : PState) (ev : SwapEvent) :
    EnrichedEvent × PState :=
  match pool_info.lookup ev.address with
  | none => (fail_record ev, st)
  | some (t0, t1) =>
    match erc20_symbol ch st t0 with
    | (sym0, st1) =>
      match erc20_symbol ch st1 t1 with
      | (sym1, st2) =>
        match erc20_decimals ch st2 t0 with
        | (dec0, st3) =>
          match erc20_decimals ch st3 t1 with
          | (dec1, st4) =>
            match block_ts ch st4 ev.blockNumber with
            | (none, st5) => (fail_record ev, st5)
            | (some ts, st5) =>
              match price0_usd ch weth_index st5 t0 t1 ev.blockNumber dec0
                  ev.sqrtPriceX96 with
              | (none, st6) => (fail_record ev, st6)
              | (some p0, st6) =>
                ({ base := ev, timestamp := some ts,
                   token0_symbol := some sym0, token1_symbol := some sym1,
                   token0_decimals := some dec0, token1_decimals := some dec1,
                   amountUSD := p0.map (fun pz =>
                     ((ev.amount0.natAbs : ℚ) / (10 : ℚ) ^ dec0) * pz) }, st6)

/-- The whole enrichment loop: one written record per decoded event, in
input order, threading the process-wide caches. -/
def process_events (ch : Chain) (pool_info : List (String × String × String))
    (weth_index : List (String × List String)) :
    PState → List SwapEvent → List EnrichedEvent × PState
  | st, [] => ([], st)
  | st, ev :: rest =>
    match enrich_event ch pool_info weth_index st ev with
    | (r, st1) =>
      match process_events ch pool_info weth_index st1 rest with
      | (rs, st2) => (r :: rs, st2)

lemma enrich_event_base (ch : Chain) (pool_info : List (String × String × String))
    (weth_index : List (String × List String)) (st : PState) (ev : SwapEvent) :
    (enrich_event ch pool_info weth_index st ev).1.base = ev := by
  unfold enrich_event
  repeat' split
  all_goals rfl

lemma enrich_event_fail (ch : Chain) (pool_info : List (String × String × String))
    (weth_index : List (String × List String)) (st : PState) (ev : SwapEvent)
    (h : pool_info.lookup ev.address = none) :
    (enrich_event ch pool_info weth_index st ev).1 = fail_record ev := by
  unfold enrich_event
  rw [h]

lemma process_events_map_base (ch : Chain)
    (pool_info : List (String × String × String))
    (weth_index : List (String × List String)) :
    ∀ evs st, ((process_events ch pool_info weth_index st evs).1.map
      (fun r => r.base)) = evs := by
  intro evs
  induction evs with
  | nil => intro st; rfl
  | cons ev rest ih =>
    intro st
    rcases he : enrich_event ch pool_info weth_index st ev with ⟨r, st1⟩
    rcases hp : process_events ch pool_info weth_index st1 rest with ⟨rs, st2⟩
    have hstep : process_events ch pool_info weth_index st (ev :: rest) =
        (r :: rs, st2) := by
      unfold process_events
      rw [he]
      dsimp only
      rw [hp]
    rw [hstep]
    have hbase := enrich_event_base ch pool_info weth_index st ev
    rw [he] at hbase
    have hrest := ih st1
    rw [hp] at hrest
    simp only [List.map_cons]
    rw [hbase, hrest]

lemma process_events_append (ch : Chain)
    (pool_info : List (String × String × String))
    (weth_index : List (String × List String)) :
    ∀ l1 l2 st,
      (process_events ch pool_info weth_index st (l1 ++ l2)).1 =
        (process_events ch pool_info weth_index st l1).1 ++
        (process_events ch pool_info weth_index
          ((process_events ch pool_info weth_index st l1).2) l2).1 := by
  intro l1
  induction l1 with
  | nil => intro l2 st; rfl
  | cons ev rest ih =>
    intro l2 st
    rcases he : enrich_event ch pool_info weth_index st ev with ⟨r, st1⟩
    rcases hp1 : process_events ch pool_info weth_index st1 (rest ++ l2) with ⟨rsL, stL⟩
    rcases hp2 : process_events ch pool_info weth_index st1 rest with ⟨rs1, st2⟩
    have hL : process_events ch pool_info weth_index st ((ev :: rest) ++ l2) =
        (r :: rsL, stL) := by
      show process_events ch pool_info weth_index st (ev :: (rest ++ l2)) = _
      unfold process_events
      rw [he]
      dsimp only
      rw [hp1]
    have hR : process_events ch pool_info weth_index st (ev :: rest) =
        (r :: rs1, st2) := by
      unfold process_events
      rw [he]
      dsimp only
      rw [hp2]
    rw [hL, hR]
    have hi := ih l2 st1
    rw [hp1, hp2] at hi
    simp only at hi ⊢
    rw [hi]
    rfl

lemma process_events_length (ch : Chain)
    (pool_info : List (String × String × String))
    (weth_index : List (String × List String)) (evs : List SwapEvent)
    (st : PState) :
    (process_events ch pool_info weth_index st evs).1.length = evs.length := by
  have h := process_events_map_base ch pool_info weth_index evs st
  calc (process_events ch pool_info weth_index st evs).1.length
      = ((process_events ch pool_info weth_index st evs).1.map
          (fun r => r.base)).length := (List.length_map _ _).symm
    _ = evs.length := by rw [h]

/-- Claim C8: enrichment failures are isolated per event.  For any batch
`pre ++ ev :: post` in which the metadata lookup for `ev`'s pool fails
(the `pool_info[pool]` `KeyError`, the representative enrichment
failure), every event of the batch is still written, in order — the
written records project back to the exact input batch — and the record
written for `ev` carries `amountUSD = None`; the surrounding events are
enriched normally, the batch is never aborted. -/
theorem C8_enrich_failure_isolated (ch : Chain)
    (pool_info : List (String × String × String))
    (weth_index : List (String × List String)) (st : PState)
    (pre post : List SwapEvent) (ev : SwapEvent)
    (hfail : pool_info.lookup ev.address = none) :
    ((process_events ch pool_info weth_index st (pre ++ ev :: post)).1.map
      (fun r => r.base) = pre ++ ev :: post) ∧
    (((process_events ch pool_info weth_index st (pre ++ ev :: post)).1.get?
        pre.length).map (fun r => r.amountUSD) = some none) := by
  refine ⟨process_events_map_base ch pool_info weth_index _ st, ?_⟩
  rw [process_events_append ch pool_info weth_index pre (ev :: post) st]
  have hlen : (process_events ch pool_info weth_index st pre).1.length =
      pre.length := process_events_length ch pool_info weth_index pre st
  rw [List.get?_append_right (by omega)]
  rw [hlen, Nat.sub_self]
  rcases he : enrich_event ch pool_info weth_index
      ((process_events ch pool_info weth_index st pre).2) ev with ⟨r, st1⟩
  rcases hp : process_events ch pool_info weth_index st1 post with ⟨rs, st2⟩
  have hstep : process_events ch pool_info weth_index
      ((process_events ch pool_info weth_index st pre).2) (ev :: post) =
      (r :: rs, st2) := by
    unfold process_events
    rw [he]
    dsimp only
    rw [hp]
  rw [hstep]
  have hf := enrich_event_fail ch pool_info weth_index
    ((process_events ch pool_info weth_index st pre).2) ev hfail
  rw [he] at hf
  simp only at hf
  rw [List.get?_cons_zero, hf]
  rfl

def c8BadEvent : SwapEvent := ⟨"0xNoMeta", 3, 0, 4, 1⟩

theorem C8_enrich_failure_isolated_witness :
    List.lookup c8BadEvent.address
      [("0xPoolA", WETH, USDT)] = none ∧
    (((process_events c10Chain [("0xPoolA", WETH, USDT)] [] pstate0
        (wWorld ++ c8BadEvent :: [])).1.map (fun r => r.base) =
      wWorld ++ c8BadEvent :: []) ∧
     (((process_events c10Chain [("0xPoolA", WETH, USDT)] [] pstate0
        (wWorld ++ c8BadEvent :: [])).1.get? wWorld.length).map
        (fun r => r.amountUSD) = some none)) :=
  ⟨by decide,
   C8_enrich_failure_isolated c10Chain [("0xPoolA", WETH, USDT)] [] pstate0
     wWorld [] c8BadEvent (by decide)⟩

/-! ### Pool metadata loading (`scripts/fetch_swaps_daily.py` lines 165-186) -/

/-- One parsed JSON record of a pool capture file, with the fields
`load_pool_info` reads: `evt.get("event")` (absent key gives `none`
without raising) and `evt["args"]["pool" | "token0" | "token1"]`
(absent key raises `KeyError`, modelled as `none`). -/
structure RawRecord where
  event : Option String
  pool : Option String
  token0 : Option String
  token1 : Option String
deriving DecidableEq, Repr

/-- A capture file as `load_pool_info` sees it: `whole = some l` when
`json.load` succeeds on the whole file (a JSON array, or a single object
wrapped into a one-element list); otherwise the per-line fallback
`lines`, where a `none` entry is a malformed line on which `json.loads`
raises. -/
structure PoolFile where
  whole : Option (List RawRecord)
  lines : List (Option RawRecord)
deriving Repr

/-- The record stream the per-file loop iterates. -/
def file_records (f : PoolFile) : List (Option RawRecord) :=
  match f.whole with
  | some l => l.map some
  | none => f.lines

/-- The body of the per-file loop: a `PoolCreated` record inserts
`pool → (token0, token1)` (Python dict assignment: the new entry
shadows an older one); other records are skipped; a missing key under
`args` raises `KeyError` (`none`), aborting the file. -/
def apply_record (info : List (String × String × String)) (r : RawRecord) :
    Option (List (String × String × String)) :=
  if r.event = some "PoolCreated" then
    match r.pool, r.token0, r.token1 with
    | some p, some t0, some t1 => some ((p, t0, t1) :: info)
    | _, _, _ => none
  else some info

/-- Process one file's record stream.  The whole per-file iteration sits
in a single `try` whose `except` logs and moves on, so the first
malformed record (`none`) or raising record aborts the REST of this
file, keeping what was already inserted. -/
def run_file (info : List (String × String × String)) :
    List (Option RawRecord) → List (String × String × String)
  | [] => info
  | none :: _ => info
  | some r :: rest =>
    match apply_record info r with
    | none => info
    | some info2 => run_file info2 rest

/-- The fold of `load_pool_info` over the matching capture files,
starting from an existing table. -/
def load_pool_info_from (info : List (String × String × String))
    (files : List PoolFile) : List (String × String × String) :=
  files.foldl (fun acc f => run_file acc (file_records f)) info

/-- `load_pool_info(chain)`: start from the empty dict `info = {}`. -/
def load_pool_info (files : List PoolFile) : List (String × String × String) :=
  load_pool_info_from [] files

/-- A capture file whose second line is malformed: a good `PoolCreated`
record for pool `PA`, a malformed line, then a well-formed `PoolCreated`
record for pool `PB`. -/
def c9File : PoolFile :=
  { whole := none,
    lines := [some ⟨some "PoolCreated", some "PA", some "TA0", some "TA1"⟩,
              none,
              some ⟨some "PoolCreated", some "PB", some "TB0", some "TB1"⟩] }

/-- Claim C9 counterexample: the well-formed record for pool `PB`
follows a malformed line in the same file, and it is NOT returned — the
loop aborts the rest of the file at the malformed line — although the
identical record processed on its own does produce the `PB` entry and
the record before the malformed line is kept. -/
theorem C9_counterexample :
    (load_pool_info [c9File]).lookup "PB" = none ∧
    (load_pool_info [c9File]).lookup "PA" = some ("TA0", "TA1") ∧
    run_file [] [some ⟨some "PoolCreated", some "PB", some "TB0", some "TB1"⟩] =
      [("PB", "TB0", "TB1")] := by
  refine ⟨?_, ?_, ?_⟩ <;> decide

/-- Claim C9 (amended): a malformed record aborts only the remainder of
its own file.  Whatever follows the first malformed entry of a file is
ignored — the file's result is exactly that of its prefix before the
malformed entry (records already inserted are kept) — and the remaining
files of the load are still processed from that state: the malformed
record is never fatal to the whole load.  A well-formed `PoolCreated`
record maps its pool address to its `(token0, token1)` pair. -/
theorem C9_malformed_aborts_file_only
    (info : List (String × String × String))
    (pre tail : List (Option RawRecord)) (f : PoolFile)
    (rest : List PoolFile) (p t0 t1 : String)
    (hf : file_records f = pre ++ Option.none :: tail) :
    run_file info (file_records f) = run_file info pre ∧
    load_pool_info_from info (f :: rest) =
      load_pool_info_from (run_file info pre) rest ∧
    apply_record info ⟨some "PoolCreated", some p, some t0, some t1⟩ =
      some ((p, t0, t1) :: info) := by
  have key : ∀ (pre : List (Option RawRecord)) (info : List (String × String × String)),
      run_file info (pre ++ Option.none :: tail) = run_file info pre := by
    intro pre
    induction pre with
    | nil => intro info; rfl
    | cons x xs ih =>
      intro info
      cases x with
      | none => rfl
      | some r =>
        show run_file info (some r :: (xs ++ Option.none :: tail)) = _
        unfold run_file
        cases apply_record info r with
        | none => rfl
        | some info2 => exact ih info2
  have h1 : run_file info (file_records f) = run_file info pre := by
    rw [hf]
    exact key pre info
  refine ⟨h1, ?_, ?_⟩
  · unfold load_pool_info_from
    rw [List.foldl_cons, h1]
  · simp [apply_record]

theorem C9_malformed_aborts_file_only_witness :
    file_records c9File =
      [some ⟨some "PoolCreated", some "PA", some "TA0", some "TA1"⟩] ++
        Option.none :: [some ⟨some "PoolCreated", some "PB", some "TB0", some "TB1"⟩] ∧
    (run_file [] (file_records c9File) =
        run_file [] [some ⟨some "PoolCreated", some "PA", some "TA0", some "TA1"⟩] ∧
     load_pool_info_from [] [c9File] =
        load_pool_info_from
          (run_file [] [some ⟨some "PoolCreated", some "PA", some "TA0", some "TA1"⟩]) [] ∧
     apply_record [] ⟨some "PoolCreated", some "PX", some "TX0", some "TX1"⟩ =
        some [("PX", "TX0", "TX1")]) :=
  ⟨by decide,
   C9_malformed_aborts_file_only []
     [some ⟨some "PoolCreated", some "PA", some "TA0", some "TA1"⟩]
     [some ⟨some "PoolCreated", some "PB", some "TB0", some "TB1"⟩]
     c9File [] "PX" "TX0" "TX1" (by decide)⟩

/-! ### Worker pool and the endpoint-credential queue
(`scripts/fetch_swaps_daily.py` lines 381-397,
`scripts/fetch_swaps.py` lines 80-94) -/

/-- The daily `worker`: `http = q.get()` (blocking on an empty queue,
modelled as `none`), then `try: fetch_swap_events(...) finally:
q.put(http)` — the credential goes back to the end of the queue whether
or not the fetch raised (`fetchOk http = false` models the call
raising). -/
def worker (fetchOk : String → Bool) (q : List String) :
    Option (List String) :=
  match q with
  | [] => none
  | http :: rest =>
    if fetchOk http then some (rest ++ [http]) else some (rest ++ [http])

/-- `fetch_swap_multiprocess` of the block-window script: `http =
queue.get(); ...; fetch_swap_events(...); queue.put(http)` with NO
try/finally — the put runs only if `fetch_swap_events` returns normally
(it can raise, e.g. `UnboundLocalError` from the final write or an
`OSError` opening the output path), otherwise the credential is lost. -/
def fetch_swap_multiprocess (fetchOk : String → Bool) (q : List String) :
    Option (List String) :=
  match q with
  | [] => none
  | http :: rest =>
    if fetchOk http then some (rest ++ [http]) else some rest

/-- Claim C7 counterexample: with two distinct credentials and a fetch
that raises, `fetch_swap_multiprocess` ends with a queue whose multiset
differs from the initial one — the checked-out credential is never
returned, refuting the claim for the `fetch_swaps.py` worker path. -/
theorem C7_counterexample :
    fetch_swap_multiprocess (fun _ => false) ["k1", "k2"] = some ["k2"] ∧
    ¬ List.Perm ["k2"] ["k1", "k2"] := by
  constructor
  · rfl
  · decide

/-- Claim C7 (amended): the daily `worker` checks out exactly one
credential and, thanks to its `finally`, returns it whether or not the
fetch raises, so the final queue is a permutation (same multiset) of the
initial one, and while the task runs the held credential is absent from
the queue (distinct credentials, hence at most one holder).  The
block-window `fetch_swap_multiprocess` returns the credential only on
normal completion: when the fetch raises, the credential is dropped from
the queue. -/
theorem C7_credential_checkout (fetchOk : String → Bool) (http : String)
    (rest : List String) (hnd : (http :: rest).Nodup) :
    worker fetchOk (http :: rest) = some (rest ++ [http]) ∧
    List.Perm (rest ++ [http]) (http :: rest) ∧
    http ∉ rest ∧
    (fetchOk http = false →
      fetch_swap_multiprocess fetchOk (http :: rest) = some rest) := by
  refine ⟨?_, ?_, ?_, ?_⟩
  · unfold worker
    cases h : fetchOk http <;> simp [h]
  · exact List.perm_append_comm.trans (by rfl)
  · exact (List.nodup_cons.mp hnd).1
  · intro h
    unfold fetch_swap_multiprocess
    simp [h]

theorem C7_credential_checkout_witness :
    (["k1", "k2"] : List String).Nodup ∧
    (worker (fun _ => false) ["k1", "k2"] = some (["k2"] ++ ["k1"]) ∧
     List.Perm (["k2"] ++ ["k1"]) ["k1", "k2"] ∧
     "k1" ∉ ["k2"] ∧
     ((fun _ => false : String → Bool) "k1" = false →
       fetch_swap_multiprocess (fun _ => false) ["k1", "k2"] = some ["k2"])) :=
  ⟨by decide, C7_credential_checkout (fun _ => false) "k1" ["k2"] (by decide)⟩

/-! ### Daily main: task construction and the output partitions
(`scripts/fetch_swaps_daily.py` lines 406-449) -/

/-- A dispatched day task: block range plus the day label naming the
output partition `infura_uniswap_v3_swaps_{date}.jsonl`. -/
structure DayTask where
  frm : Nat
  toBlk : Nat
  date : Nat
deriving DecidableEq, Repr

/-- The task list `main` builds (lines 424-440): exactly one tuple per
`split_days` range.  No existence check of the output partition is made
anywhere in `main` (the `split_blocks` helper with its skip check is not
called by the daily `main`). -/
def main_tasks (day_ranges : List (Nat × Nat × Nat)) : List DayTask :=
  day_ranges.map (fun r => ⟨r.1, r.2.1, r.2.2⟩)

/-- Modelled from the spec: "Tasks are pulled from a static list built
once at startup (skip-if-output-exists filtering applied before
dispatch, not per-worker)" — the task list with days whose output
partition already exists filtered out before dispatch. -/
def main_tasks_spec (existing : Nat → Bool)
    (day_ranges : List (Nat × Nat × Nat)) : List DayTask :=
  (day_ranges.filter (fun r => ! existing r.2.2)).map (fun r => ⟨r.1, r.2.1, r.2.2⟩)

/-- The file-system effect of one dispatched day task on the per-day
partitions (success path): `fetch_swap_events` opens the partition with
mode "a" and appends one enriched record per fetched event; other days'
files are untouched. -/
def run_day_task (ch : Chain) (pool_info : List (String × String × String))
    (weth_index : List (String × List String)) (world : List SwapEvent)
    (st : PState) (files : Nat → List EnrichedEvent) (t : DayTask) :
    Nat → List EnrichedEvent :=
  fun d =>
    if d = t.date then
      files d ++ (process_events ch pool_info weth_index st
        (getLogs world t.frm t.toBlk)).1
    else files d

/-- The pre-existing partitions of the counterexample: day 7 already has
a completed, non-empty file. -/
def c2Files : Nat → List EnrichedEvent :=
  fun d => if d = 7 then [fail_record ⟨"0xPrev", 150, 0, 1, 1⟩] else []

/-- Claim C2 counterexample: day 7's partition exists and is non-empty,
yet the daily `main` still builds a task for day 7 — the spec-modelled
filtered list would be empty — and running that task appends to the
existing file, changing it (and re-issuing the fetch for the range). -/
theorem C2_counterexample :
    main_tasks [(100, 200, 7)] = [⟨100, 200, 7⟩] ∧
    c2Files 7 ≠ [] ∧
    main_tasks_spec (fun d => decide (d = 7)) [(100, 200, 7)] = [] ∧
    run_day_task c10Chain [] [] [⟨"0xP", 150, 0, 1, 1⟩] pstate0 c2Files
      ⟨100, 200, 7⟩ 7 ≠ c2Files 7 := by
  refine ⟨rfl, ?_, rfl, ?_⟩
  · decide
  · decide

/-- Claim C2 (amended): the daily `main` dispatches every day produced
by `split_days` unconditionally — its task list equals the spec-modelled
list only under the assumption that no partition exists — and a
dispatched task appends its fetched, enriched events to its own day's
partition while leaving every other day's file unchanged; nothing skips
a day whose partition is already complete. -/
theorem C2_no_skip_filter (day_ranges : List (Nat × Nat × Nat)) :
    main_tasks day_ranges = main_tasks_spec (fun _ => false) day_ranges ∧
    (main_tasks day_ranges).map (fun t => t.date) =
      day_ranges.map (fun r => r.2.2) ∧
    (∀ ch pool_info weth_index world st files t,
      run_day_task ch pool_info weth_index world st files t t.date =
        files t.date ++ (process_events ch pool_info weth_index st
          (getLogs world t.frm t.toBlk)).1 ∧
      ∀ d, d ≠ t.date →
        run_day_task ch pool_info weth_index world st files t d = files d) := by
  refine ⟨?_, ?_, ?_⟩
  · unfold main_tasks main_tasks_spec
    simp
  · unfold main_tasks
    simp
  · intro ch pool_info weth_index world st files t
    constructor
    · unfold run_day_task
      simp
    · intro d hd
      unfold run_day_task
      simp [hd]
